import Mathlib

/-!
Verification development for the TMG Toolbox multi-class transit assignment
tool (`TMGToolbox2/src/Assign/assign_transit.py`).

The Python source is shallowly embedded below.  Strings are modelled as
`List Char` (Python string methods `replace`, `find`, `endswith`, `in` are
reimplemented over character lists), mutable per-element network fields are
modelled as explicit finite maps (`Nat → Int`, `String → Nat → ℚ`), the Emme
travel-time-function table of the bank is modelled as a list of function ids, and
code that can raise is modelled with `Except` / an explicit error component.
External engine effects (invocations of the extended transit assignment
solver) are recorded as an explicit trace of `SolverCall` values.
-/

set_option maxRecDepth 4096

/-! ## String primitives (Python `str` operations over `List Char`) -/

/-- Python `s.replace(" ", "")`: drop every space character. -/
def strip_ws (s : List Char) : List Char :=
  s.filter (fun c => c ≠ ' ')

/-- Predicate `starts_with pat s`: true when `pat` is an initial segment of `s`
(Python `s.startswith(pat)` at offset 0). -/
def starts_with : List Char → List Char → Bool
  | [], _ => true
  | _ :: _, [] => false
  | p :: ps, c :: cs => p = c && starts_with ps cs

/-- Python `pat in s`: some position of `s` starts with `pat`. -/
def contains_sub (pat : List Char) : List Char → Bool
  | [] => starts_with pat []
  | c :: rest => starts_with pat (c :: rest) || contains_sub pat rest

/-- Python `s.endswith(pat)`. -/
def ends_with (pat s : List Char) : Bool :=
  starts_with pat.reverse s.reverse

/-- Python `s.find(pat)`: index of the first occurrence of `pat` in `s`
(`none` when absent). -/
def find_idx (pat : List Char) : List Char → Option Nat
  | [] => if starts_with pat [] then some 0 else none
  | c :: rest =>
    if starts_with pat (c :: rest) then some 0
    else (find_idx pat rest).map (· + 1)

/-! ## Travel time function healing (`_heal_travel_time_functions`) -/

/-- The congestion variable reserved by the tool (stored in `us3`). -/
def us3_var : List Char := ['u', 's', '3']

/-- The multiplicative congestion suffix the tool itself appends,
`*(1+us3)` with whitespace removed. -/
def congestion_suffix : List Char := ['*', '(', '1', '+', 'u', 's', '3', ')']

/-- Python `cleaned_expression[:cleaned_expression.find("*(1+us3)")]` — the healed
expression.  The source only evaluates this when the cleaned expression ends
with the suffix, in which case `find_idx` is necessarily `some`. -/
def heal_expr (s : List Char) : List Char :=
  match find_idx congestion_suffix s with
  | some i => s.take i
  | none => s

inductive FunctionType where
  | transit_time
  | other
deriving DecidableEq

/-- A travel time function of the Emme bank: an id and an arithmetic
expression (kept as the raw character string). -/
structure EmmeFunction where
  id : String
  type : FunctionType
  expression : List Char
deriving DecidableEq

/-- One iteration of the `_heal_travel_time_functions` loop body for a single
function: skip non transit-time functions, strip whitespace, strip a trailing
congestion suffix (truncating at the *first* occurrence, per `str.find`),
raise when `us3` is used in any other shape.  Returns the possibly rewritten
function and whether it was changed. -/
def heal_function (f : EmmeFunction) : Except String (EmmeFunction × Bool) :=
  match f.type with
  | .other => .ok (f, false)
  | .transit_time =>
    let cleaned := strip_ws f.expression
    if contains_sub us3_var cleaned then
      if ends_with congestion_suffix cleaned then
        .ok ({ f with expression := heal_expr cleaned }, true)
      else
        .error f.id
    else
      .ok (f, false)

/-- The full healing pass over the functions of the bank, counting the healed
ones.  The Python loop mutates the bank in place and raises at the first
offending function; the embedding returns the rewritten list and the count,
or the id of the first offending function. -/
def heal_travel_time_functions : List EmmeFunction → Except String (List EmmeFunction × Nat)
  | [] => .ok ([], 0)
  | f :: rest =>
    match heal_function f with
    | .error e => .error e
    | .ok (f2, changed) =>
      match heal_travel_time_functions rest with
      | .error e => .error e
      | .ok (fs, n) => .ok (f2 :: fs, if changed then n + 1 else n)

/-- A transit-time function that uses `us3` outside the recognized trailing
congestion suffix: the fatal configuration conflict of the source. -/
def offending (f : EmmeFunction) : Prop :=
  f.type = .transit_time ∧
    contains_sub us3_var (strip_ws f.expression) = true ∧
    ends_with congestion_suffix (strip_ws f.expression) = false

instance (f : EmmeFunction) : Decidable (offending f) := by
  unfold offending; infer_instance

/-! ## Effective headway (`_assign_effective_headway`)

Two declarative network calculations over the transit lines: the Emme
selector `hdw=a,b` selects the lines whose scheduled headway lies in the
inclusive interval `[a, b]`, and the calculation overwrites the effective
headway attribute with the value of the expression.  The second calculation
runs after the first. -/

structure TransitLine where
  hdw : ℚ
  ehdw : ℚ
deriving DecidableEq

/-- Spec `{"expression": "hdw", "selections": {"transit_line": "hdw=0,15"}}`. -/
def small_headway_calc (l : TransitLine) : TransitLine :=
  if 0 ≤ l.hdw ∧ l.hdw ≤ 15 then { l with ehdw := l.hdw } else l

/-- Spec `{"expression": "15+2*slope*(hdw-15)", "selections": {"transit_line": "hdw=15,999"}}`. -/
def large_headway_calc (slope : ℚ) (l : TransitLine) : TransitLine :=
  if 15 ≤ l.hdw ∧ l.hdw ≤ 999 then { l with ehdw := 15 + 2 * slope * (l.hdw - 15) } else l

/-- Source `_assign_effective_headway`: run the small-headway calculation over all
lines, then the large-headway calculation. -/
def assign_effective_headway (slope : ℚ) (lines : List TransitLine) : List TransitLine :=
  (lines.map small_headway_calc).map (large_headway_calc slope)

/-! ## Walk perception (`_assign_walk_perception`)

Link extra attributes are modelled as a map from attribute name and link id
to value.  An Emme link selector is modelled extensionally as the Boolean
predicate over link ids it matches. -/

/-- A `(selector, value)` walk perception override of a transit class. -/
structure WalkPerceptionOverride where
  filter : Nat → Bool
  walk_perception_value : ℚ

/-- The walk-perception relevant slice of one transit class descriptor. -/
structure WalkTransitClass where
  walk_time_perception_attribute : String
  walk_perceptions : List WalkPerceptionOverride

/-- Link extra attribute store: attribute name → link id → value. -/
def LinkAttributeState : Type := String → Nat → ℚ

/-- Python `scenario.extra_attribute(att).initialize(v)`: set attribute `att` of
every link to `v`. -/
def initialize_attribute (s : LinkAttributeState) (att : String) (v : ℚ) : LinkAttributeState :=
  fun a l => if a = att then v else s a l

/-- The network calculation issued by the `apply_selection` closure: write
`v` into attribute `att` of every link matched by `sel`. -/
def apply_selection (att : String) (v : ℚ) (sel : Nat → Bool) (s : LinkAttributeState) :
    LinkAttributeState :=
  fun a l => if a = att ∧ sel l = true then v else s a l

/-- Source `_assign_walk_perception`.  The first loop initializes the
attribute of each class to 1.0.  The `apply_selection` closure then reads the enclosing
variable `walk_time_perception_attribute`, which after that loop holds the
attribute name of the *last* class; the second loop therefore issues every
override calculation against the attribute of the last class. -/
def assign_walk_perception (transit_classes : List WalkTransitClass)
    (s : LinkAttributeState) : LinkAttributeState :=
  let s1 := transit_classes.foldl
    (fun st tc => initialize_attribute st tc.walk_time_perception_attribute 1) s
  match transit_classes.getLast? with
  | none => s1
  | some last_tc =>
    transit_classes.foldl
      (fun st tc => tc.walk_perceptions.foldl
        (fun st2 wp =>
          apply_selection last_tc.walk_time_perception_attribute
            wp.walk_perception_value wp.filter st2) st)
      s1

/-! ## Journey levels (`_get_base_assignment_spec_uncongested`, tail) -/

inductive ModeKind where
  | transit
  | aux_transit
  | auto
deriving DecidableEq

/-- A mode of the network of the scenario. -/
structure NetMode where
  id : String
  type : ModeKind
deriving DecidableEq

/-- One entry of the `journey_levels` list of the assignment specification:
`transition_rules` pairs a mode id with the index of the next journey level. -/
structure JourneyLevel where
  description : String
  destinations_reachable : Bool
  transition_rules : List (String × Nat)
deriving DecidableEq

/-- The `journey_levels` construction at the end of
`_get_base_assignment_spec_uncongested`: the transition table is populated
from the transit modes of the network only when the mode filter of the class is the
wildcard `["*"]`, and both levels share it. -/
def build_journey_levels (network_modes : List NetMode) (modes : List String)
    (walk_all_way_flag : Bool) : List JourneyLevel :=
  let mode_list :=
    if modes = ["*"] then
      (network_modes.filter (fun m => m.type = ModeKind.transit)).map (fun m => (m.id, 1))
    else []
  [ { description := "Walking", destinations_reachable := walk_all_way_flag,
      transition_rules := mode_list },
    { description := "Transit", destinations_reachable := true,
      transition_rules := mode_list } ]

/-! ## Efficient connector network (`_publish_efficient_connector_network`)

Nodes are identified by their number; links by their end node numbers.  The
per-node `data1` marker store is a map from node number to value. -/

structure NetNode where
  number : Nat
  is_centroid : Bool
deriving DecidableEq

structure NetLink where
  i_node : Nat
  j_node : Nat
deriving DecidableEq

structure EmmeNetwork where
  nodes : List NetNode
  links : List NetLink
deriving DecidableEq

/-- Write marker value `v` for node number `k`. -/
def set_marker (s : Nat → Int) (k : Nat) (v : Int) : Nat → Int :=
  fun m => if m = k then v else s m

/-- Python `link.i_node.is_centroid` for a node number. -/
def is_centroid_num (net : EmmeNetwork) (k : Nat) : Bool :=
  net.nodes.any (fun nd => nd.number = k && nd.is_centroid)

/-- Python `node.incoming_links()`: the links whose `j` end is this node. -/
def incoming_links (net : EmmeNetwork) (k : Nat) : List NetLink :=
  net.links.filter (fun l => l.j_node = k)

/-- Python `node.outgoing_links()`: the links whose `i` end is this node. -/
def outgoing_links (net : EmmeNetwork) (k : Nat) : List NetLink :=
  net.links.filter (fun l => l.i_node = k)

/-- Python `network.regular_nodes()`: the non-centroid nodes. -/
def regular_nodes (net : EmmeNetwork) : List NetNode :=
  net.nodes.filter (fun nd => !nd.is_centroid)

/-- The body of the second `for node in network.regular_nodes()` loop of
`_publish_efficient_connector_network` for one node: skip agency-numbered
nodes, mark the node `-1` on any incoming link from a centroid or outgoing
link to a centroid, and when more than one incoming link arrives from an
agency-numbered node, mark the node and all its agency neighbours `-1`. -/
def process_node (net : EmmeNetwork) (s : Nat → Int) (n : NetNode) : Nat → Int :=
  if 99999 < n.number then s
  else
    let inc := incoming_links net n.number
    let out := outgoing_links net n.number
    let s1 := inc.foldl
      (fun st l => if is_centroid_num net l.i_node then set_marker st n.number (-1) else st) s
    let agency_counter := (inc.filter (fun l => decide (99999 < l.i_node))).length
    let s2 := out.foldl
      (fun st l => if is_centroid_num net l.j_node then set_marker st n.number (-1) else st) s1
    if 1 < agency_counter then
      let s3 := set_marker s2 n.number (-1)
      let s4 := inc.foldl
        (fun st l => if 99999 < l.i_node then set_marker st l.i_node (-1) else st) s3
      out.foldl
        (fun st l => if 99999 < l.j_node then set_marker st l.j_node (-1) else st) s4
    else s2

/-- Source `_publish_efficient_connector_network`: zero the marker of every regular
node, then run the marking loop over the regular nodes in order.  `s0` is
the marker state the network is loaded with. -/
def publish_efficient_connector_network (net : EmmeNetwork) (s0 : Nat → Int) : Nat → Int :=
  let zeroed : Nat → Int :=
    fun k => if (regular_nodes net).any (fun nd => nd.number = k) then 0 else s0 k
  (regular_nodes net).foldl (process_node net) zeroed

/-! ## Per-class assignment (`_run_transit_assignment`,
`_run_uncongested_assignment`, `_execute` wiring)

An invocation of the external extended transit assignment solver is recorded
as a `SolverCall`.  Building the class specification evaluates the per-class
index into each of the five lists; an out-of-range index is the Python
`IndexError`, which aborts the loop.  The result is the trace of solver
calls made together with the error, if one was raised. -/

structure SolverCall where
  class_name : String
  add_volumes : Bool
deriving DecidableEq

/-- The `for i, tc in enumerate(parameters["transit_classes"])` loop of
`_run_uncongested_assignment`, starting at index `i`. -/
def assign_classes (demand_matrix_list effective_headway_attribute_list
    headway_fraction_attribute_list impedance_matrix_list
    walk_time_perception_attribute_list : List Nat) :
    Nat → List String → List SolverCall × Option String
  | _, [] => ([], none)
  | i, tc :: rest =>
    match demand_matrix_list[i]?, effective_headway_attribute_list[i]?,
        headway_fraction_attribute_list[i]?, impedance_matrix_list[i]?,
        walk_time_perception_attribute_list[i]? with
    | some _, some _, some _, some _, some _ =>
      let res := assign_classes demand_matrix_list effective_headway_attribute_list
        headway_fraction_attribute_list impedance_matrix_list
        walk_time_perception_attribute_list (i + 1) rest
      ({ class_name := tc, add_volumes := i != 0 } :: res.1, res.2)
    | _, _, _, _, _ => ([], some "IndexError")

/-- Source `_run_uncongested_assignment`: when the surface transit speed option is
off, assign every class in declared order with `add_volumes=(i != 0)`;
otherwise the `else` branch is `pass`. -/
def run_uncongested_assignment (surface_transit_speed : Bool) (transit_classes : List String)
    (demand_matrix_list effective_headway_attribute_list headway_fraction_attribute_list
      impedance_matrix_list walk_time_perception_attribute_list : List Nat) :
    List SolverCall × Option String :=
  if surface_transit_speed = false then
    assign_classes demand_matrix_list effective_headway_attribute_list
      headway_fraction_attribute_list impedance_matrix_list
      walk_time_perception_attribute_list 0 transit_classes
  else ([], none)

/-- Source `_run_transit_assignment`: the congested branch is `pass`. -/
def run_transit_assignment (congested_assignment surface_transit_speed : Bool)
    (transit_classes : List String)
    (demand_matrix_list effective_headway_attribute_list headway_fraction_attribute_list
      impedance_matrix_list walk_time_perception_attribute_list : List Nat) :
    List SolverCall × Option String :=
  if congested_assignment = true then ([], none)
  else
    run_uncongested_assignment surface_transit_speed transit_classes
      demand_matrix_list effective_headway_attribute_list headway_fraction_attribute_list
      impedance_matrix_list walk_time_perception_attribute_list

/-- Source `_create_headway_attribute_list` creates a single temporary attribute
and returns it as a one-element list, independent of the class count. -/
def create_headway_attribute_list (att_id : Nat) : List Nat :=
  [att_id]

/-- The `_execute` wiring of the assignment stage: the demand, impedance and
walk perception lists hold one entry per transit class, while the effective
headway and headway fraction attribute lists are the one-element lists
returned by `_create_headway_attribute_list`. -/
def execute_assignment (congested_assignment surface_transit_speed : Bool)
    (transit_classes : List String) : List SolverCall × Option String :=
  let demand_matrix_list := List.range transit_classes.length
  let effective_headway_attribute_list := create_headway_attribute_list 0
  let headway_fraction_attribute_list := create_headway_attribute_list 1
  let impedance_matrix_list := List.range transit_classes.length
  let walk_time_perception_attribute_list := List.range transit_classes.length
  run_transit_assignment congested_assignment surface_transit_speed transit_classes
    demand_matrix_list effective_headway_attribute_list headway_fraction_attribute_list
    impedance_matrix_list walk_time_perception_attribute_list

/-! ## Temporary surface-transit time functions (`_temp_stsu_ttfs`)

The function table of the bank is modelled as the list of defined `ftN` ids
(`N` as a natural number).  For each declared ttf definition the scope
creates the first free `ftN` with `1 ≤ N ≤ 99`; the `finally` clause deletes
every created function whether the body completed or raised.  The
`ttfs_changed` flag of the source is never set to `True`, so the segment
restore branch never runs. -/

/-- The inner `for i in range(1, 100)` search for a free function id. -/
def find_free_slot (bank : List Nat) : Option Nat :=
  (List.range' 1 99).find? (fun i => !(bank.contains i))

/-- The creation loop over `parameters["ttf_definitions"]`: returns the bank
extended with the created functions, and the list of created ids. -/
def create_temp_ttfs : List Nat → List Nat → List Nat × List Nat
  | [], bank => (bank, [])
  | _ :: rest, bank =>
    match find_free_slot bank with
    | none => create_temp_ttfs rest bank
    | some i =>
      let res := create_temp_ttfs rest (i :: bank)
      (res.1, i :: res.2)

/-- The `finally` clause: `scenario.emmebank.delete_function(func)` for every
created function. -/
def delete_functions (bank : List Nat) (created : List Nat) : List Nat :=
  created.foldl (fun b c => b.erase c) bank

/-- The whole `_temp_stsu_ttfs` scope around a body that completes normally
(`body_ok = true`) or raises (`body_ok = false`): create the temporary
functions, run the body, and in both cases delete the created functions.
The first component reports whether the scope exited normally, the second is
the function table of the bank after exit. -/
def temp_stsu_ttfs (bank : List Nat) (ttf_definitions : List Nat) (body_ok : Bool) :
    Bool × List Nat :=
  let entry := create_temp_ttfs ttf_definitions bank
  (body_ok, delete_functions entry.1 entry.2)

/-! ## Impedance matrices (`_get_impedance_matrices`)

In the source, the branch for a real (non-`"mf0"`) impedance matrix id calls
`_util.initialize_matrix(id=matrix_id, ...)` without binding the result and
then appends the local variable `matrix`, which is only ever assigned in the
sentinel branch.  The local is modelled as an explicit `Option` threaded
through the loop; appending while it is `none` is the Python
`UnboundLocalError`. -/

inductive ImpedanceMatrix where
  /-- A temporary matrix created by `_util.initialize_matrix(matrix_type="FULL")`;
  numbered in creation order. -/
  | temp (n : Nat)
  /-- A user-owned matrix with a real matrix id. -/
  | user (id : String)
deriving DecidableEq

/-- Whether a matrix is a system-created temporary. -/
def is_temp : ImpedanceMatrix → Bool
  | .temp _ => true
  | .user _ => false

/-- The impedance-matrix slice of a transit class descriptor. -/
structure ImpTransitClass where
  name : String
  impedance_matrix : String
deriving DecidableEq

/-- The loop of `_get_impedance_matrices`: `matrix_var` is the Python local
`matrix`, `counter` numbers the created temporaries, `acc` and `temps` are
`impedance_matrix_list` and `temp_matrix_list` (accumulated reversed). -/
def get_impedance_matrices_go :
    List ImpTransitClass → Option ImpedanceMatrix → Nat →
    List ImpedanceMatrix → List ImpedanceMatrix →
    Except String (List ImpedanceMatrix × List ImpedanceMatrix)
  | [], _, _, acc, temps => .ok (acc.reverse, temps.reverse)
  | tc :: rest, matrix_var, counter, acc, temps =>
    if tc.impedance_matrix ≠ "mf0" then
      match matrix_var with
      | none => .error "UnboundLocalError: matrix"
      | some m => get_impedance_matrices_go rest matrix_var counter (m :: acc) temps
    else
      let m := ImpedanceMatrix.temp counter
      get_impedance_matrices_go rest (some m) (counter + 1) (m :: acc) (m :: temps)

/-- Source `_get_impedance_matrices`. -/
def get_impedance_matrices (transit_classes : List ImpTransitClass) :
    Except String (List ImpedanceMatrix × List ImpedanceMatrix) :=
  get_impedance_matrices_go transit_classes none 0 [] []

/-! # Theorems -/

/-- Claim C1: the code raises `IndexError` while building the
specification of the second class: `_create_headway_attribute_list` returns a one-element list
but `_run_uncongested_assignment` indexes it with the class index.  With a
single class the solver is invoked once with `add_volumes = False`; with two
classes it is invoked for the first class only and the run then aborts, so
the solver is never invoked with `add_volumes = True`. -/
theorem assignment_indexerror_on_second_class :
    execute_assignment false false ["classA"]
      = ([{ class_name := "classA", add_volumes := false }], none) ∧
    execute_assignment false false ["classA", "classB"]
      = ([{ class_name := "classA", add_volumes := false }], some "IndexError") := by
  exact ⟨rfl, rfl⟩

/-- Claim C9: when the congested-assignment flag is true, the per-class
assignment stage performs no work (no solver call, no error); the same holds
on the uncongested path when the surface-transit-speed option is enabled. -/
theorem congested_and_stsu_branches_no_op (surface_transit_speed : Bool)
    (transit_classes : List String) :
    execute_assignment true surface_transit_speed transit_classes = ([], none) ∧
    execute_assignment false true transit_classes = ([], none) := by
  exact ⟨rfl, rfl⟩

/-- Claim C3: the `apply_selection` closure captures the initialization
leftover variable of the initialization loop, so the override of the first
class is written to the walk attribute of the *last* class: with two classes whose attributes are `wa1`
and `wa2` and an override `(link 1, 2.0)` declared on the first class, link
1 of `wa1` stays at the initial 1.0 while link 1 of `wa2` gets 2.0 —
contradicting the claim, which requires `wa1` to end at 2.0. -/
theorem walk_perception_writes_last_class_attribute :
    (assign_walk_perception
        [⟨"wa1", [⟨fun l => l == 1, 2⟩]⟩, ⟨"wa2", []⟩] (fun _ _ => 0)) "wa1" 1 = 1 ∧
    (assign_walk_perception
        [⟨"wa1", [⟨fun l => l == 1, 2⟩]⟩, ⟨"wa2", []⟩] (fun _ _ => 0)) "wa2" 1 = 2 ∧
    (1 : ℚ) ≠ 2 := by
  refine ⟨rfl, rfl, by norm_num⟩

/-- Claim C6: after the two effective-headway network calculations, a line
with scheduled headway in `(0, 15]` has effective headway equal to its
scheduled headway, and a line with headway in `(15, 999]` has effective
headway `15 + 2 * slope * (hdw - 15)` (the two selector ranges overlap at
15, where both calculations write the same value). -/
theorem effective_headway_spec (slope : ℚ) (lines : List TransitLine) :
    assign_effective_headway slope lines
      = lines.map (fun l => large_headway_calc slope (small_headway_calc l)) ∧
    ∀ l ∈ lines,
      (0 < l.hdw → l.hdw ≤ 15 →
        (large_headway_calc slope (small_headway_calc l)).ehdw = l.hdw) ∧
      (15 < l.hdw → l.hdw ≤ 999 →
        (large_headway_calc slope (small_headway_calc l)).ehdw
          = 15 + 2 * slope * (l.hdw - 15)) := by
  constructor
  · simp [assign_effective_headway, List.map_map]
  · intro l _
    constructor
    · intro h1 h2
      have hsmall : small_headway_calc l = { hdw := l.hdw, ehdw := l.hdw } := by
        unfold small_headway_calc
        rw [if_pos ⟨le_of_lt h1, h2⟩]
      rw [hsmall]
      unfold large_headway_calc
      by_cases h15 : (15 : ℚ) ≤ l.hdw
      · rw [if_pos (show (15 : ℚ) ≤ l.hdw ∧ l.hdw ≤ (999 : ℚ) from ⟨h15, by linarith⟩)]
        have he : l.hdw = 15 := le_antisymm h2 h15
        show 15 + 2 * slope * (l.hdw - 15) = l.hdw
        rw [he]; ring
      · rw [if_neg (show ¬((15 : ℚ) ≤ l.hdw ∧ l.hdw ≤ (999 : ℚ)) from fun hc => h15 hc.1)]
    · intro h1 h2
      have hsmall : small_headway_calc l = l := by
        unfold small_headway_calc
        rw [if_neg (fun hc => absurd h1 (not_lt.mpr hc.2))]
      rw [hsmall]
      unfold large_headway_calc
      rw [if_pos ⟨le_of_lt h1, h2⟩]

/-- Witness for `effective_headway_spec`, at the instances given in the
spec: headway
10 maps to 10, the boundary 15 maps to 15, and headway 100 with slope 1/2
maps to 100. -/
theorem effective_headway_spec_witness :
    (large_headway_calc (1/2) (small_headway_calc ⟨10, 0⟩)).ehdw = 10 ∧
    (large_headway_calc (1/2) (small_headway_calc ⟨15, 0⟩)).ehdw = 15 ∧
    (large_headway_calc (1/2) (small_headway_calc ⟨100, 0⟩)).ehdw = 100 := by
  obtain ⟨-, h⟩ := effective_headway_spec (1/2) [⟨10, 0⟩, ⟨15, 0⟩, ⟨100, 0⟩]
  refine ⟨?_, ?_, ?_⟩
  · exact (h ⟨10, 0⟩ (by simp)).1 (by norm_num) (by norm_num)
  · exact (h ⟨15, 0⟩ (by simp)).1 (by norm_num) (by norm_num)
  · rw [(h ⟨100, 0⟩ (by simp)).2 (by norm_num) (by norm_num)]
    norm_num

/-- Claim C7, counterexample: for a class with the explicit (non-wildcard)
mode list `["b"]` on a network that has transit mode `b`, the built journey
levels have an *empty* transition table, not the table `[("b", 1)]` that the
claim requires to be populated from the explicit mode list of the class. -/
theorem journey_levels_explicit_modes_counterexample :
    build_journey_levels [⟨"b", ModeKind.transit⟩] ["b"] false
      = [⟨"Walking", false, []⟩, ⟨"Transit", true, []⟩] ∧
    ([] : List (String × Nat)) ≠ [("b", 1)] := by
  exact ⟨rfl, by decide⟩

/-- Claim C7, amended: the journey levels are always the two-state machine
(Walking, then Transit with `next_journey_level = 1`), sharing one
transition table; the table holds every transit mode of the network when the
mode filter of the class is the wildcard `["*"]`, and is empty otherwise. -/
theorem journey_levels_spec (network_modes : List NetMode) (modes : List String)
    (walk_all_way_flag : Bool) :
    ∃ rules,
      build_journey_levels network_modes modes walk_all_way_flag
        = [⟨"Walking", walk_all_way_flag, rules⟩, ⟨"Transit", true, rules⟩] ∧
      (modes = ["*"] →
        (∀ m ∈ network_modes, m.type = ModeKind.transit → (m.id, 1) ∈ rules) ∧
        (∀ r ∈ rules, r.2 = 1 ∧ ∃ m ∈ network_modes, m.type = ModeKind.transit ∧ m.id = r.1)) ∧
      (modes ≠ ["*"] → rules = []) := by
  by_cases h : modes = ["*"]
  · refine ⟨(network_modes.filter (fun m => m.type = ModeKind.transit)).map
      (fun m => (m.id, 1)), ?_, ?_, fun hne => absurd h hne⟩
    · unfold build_journey_levels
      rw [if_pos h]
    · intro _
      constructor
      · intro m hm hmt
        exact List.mem_map_of_mem _ (List.mem_filter.mpr ⟨hm, by simp [hmt]⟩)
      · intro r hr
        obtain ⟨m, hm, hrm⟩ := List.mem_map.mp hr
        obtain ⟨hmem, hmt⟩ := List.mem_filter.mp hm
        subst hrm
        exact ⟨rfl, m, hmem, by simpa using hmt, rfl⟩
  · refine ⟨[], ?_, fun he => absurd he h, fun _ => rfl⟩
    unfold build_journey_levels
    rw [if_neg h]

/-- Witness for `journey_levels_spec`: with the wildcard filter on a network
whose only transit mode is `b`, the shared transition table contains
`("b", 1)`. -/
theorem journey_levels_spec_witness :
    ∃ rules,
      build_journey_levels [⟨"b", ModeKind.transit⟩] ["*"] true
        = [⟨"Walking", true, rules⟩, ⟨"Transit", true, rules⟩] ∧ ("b", 1) ∈ rules := by
  obtain ⟨rules, heq, hw, -⟩ := journey_levels_spec [⟨"b", ModeKind.transit⟩] ["*"] true
  exact ⟨rules, heq, (hw rfl).1 ⟨"b", ModeKind.transit⟩ (by simp) rfl⟩

/-- Once the Python local `matrix` is bound, the impedance loop can no
longer raise: every later real-id class appends the currently bound
matrix. -/
theorem get_impedance_go_some_ok (cs : List ImpTransitClass) :
    ∀ m counter acc temps, ∃ l t,
      get_impedance_matrices_go cs (some m) counter acc temps = .ok (l, t) := by
  induction cs with
  | nil => intro m counter acc temps; exact ⟨acc.reverse, temps.reverse, rfl⟩
  | cons tc rest ih =>
    intro m counter acc temps
    unfold get_impedance_matrices_go
    by_cases h : tc.impedance_matrix ≠ "mf0"
    · rw [if_pos h]
      exact ih m counter (m :: acc) temps
    · rw [if_neg h]
      exact ih (ImpedanceMatrix.temp counter) (counter + 1)
        (ImpedanceMatrix.temp counter :: acc) (ImpedanceMatrix.temp counter :: temps)

/-- The impedance loop only ever appends system-created temporaries: the
accumulator invariant. -/
theorem get_impedance_go_temps (cs : List ImpTransitClass) :
    ∀ mv counter acc temps,
      (∀ x ∈ acc, is_temp x = true) →
      (∀ m, mv = some m → is_temp m = true) →
      ∀ l t, get_impedance_matrices_go cs mv counter acc temps = .ok (l, t) →
        ∀ x ∈ l, is_temp x = true := by
  induction cs with
  | nil =>
    intro mv counter acc temps hacc _ l t hok x hx
    unfold get_impedance_matrices_go at hok
    obtain ⟨hl, -⟩ : acc.reverse = l ∧ temps.reverse = t := by
      constructor <;> [exact congrArg Prod.fst (Except.ok.inj hok);
        exact congrArg Prod.snd (Except.ok.inj hok)]
    exact hacc x (List.mem_reverse.mp (hl ▸ hx))
  | cons tc rest ih =>
    intro mv counter acc temps hacc hmv l t hok x hx
    unfold get_impedance_matrices_go at hok
    by_cases h : tc.impedance_matrix ≠ "mf0"
    · rw [if_pos h] at hok
      cases mv with
      | none => exact absurd hok (by simp)
      | some m =>
        refine ih (some m) counter (m :: acc) temps ?_ hmv l t hok x hx
        intro y hy
        rcases List.mem_cons.mp hy with rfl | hy'
        · exact hmv y rfl
        · exact hacc y hy'
    · rw [if_neg h] at hok
      refine ih (some (ImpedanceMatrix.temp counter)) (counter + 1)
        (ImpedanceMatrix.temp counter :: acc) (ImpedanceMatrix.temp counter :: temps)
        ?_ ?_ l t hok x hx
      · intro y hy
        rcases List.mem_cons.mp hy with rfl | hy'
        · rfl
        · exact hacc y hy'
      · intro m hm
        cases hm; rfl

/-- Claim C10, amended: `_get_impedance_matrices` raises the unbound-local
error if and only if the *first* transit class supplies a real (non-"mf0")
impedance matrix id; when a real-id class is preceded by a sentinel class no
error is raised, and in every successful run each entry of the returned
impedance matrix list is a system-created temporary — a user-supplied matrix
is never the entry appended for any class. -/
theorem impedance_matrices_spec (cs : List ImpTransitClass) :
    ((∃ e, get_impedance_matrices cs = .error e) ↔
      ∃ tc0 rest, cs = tc0 :: rest ∧ tc0.impedance_matrix ≠ "mf0") ∧
    (∀ l t, get_impedance_matrices cs = .ok (l, t) → ∀ x ∈ l, is_temp x = true) := by
  constructor
  · cases cs with
    | nil =>
      constructor
      · rintro ⟨e, he⟩
        exact absurd he (by simp [get_impedance_matrices, get_impedance_matrices_go])
      · rintro ⟨tc0, rest, h, -⟩
        cases h
    | cons tc0 rest =>
      unfold get_impedance_matrices get_impedance_matrices_go
      by_cases h : tc0.impedance_matrix ≠ "mf0"
      · rw [if_pos h]
        exact ⟨fun _ => ⟨tc0, rest, rfl, h⟩, fun _ => ⟨"UnboundLocalError: matrix", rfl⟩⟩
      · rw [if_neg h]
        constructor
        · rintro ⟨e, he⟩
          obtain ⟨l, t, hok⟩ := get_impedance_go_some_ok rest (ImpedanceMatrix.temp 0) 1
            [ImpedanceMatrix.temp 0] [ImpedanceMatrix.temp 0]
          rw [hok] at he
          exact absurd he (by simp)
        · rintro ⟨tc0', rest', heq, hne⟩
          obtain ⟨rfl, -⟩ := List.cons.inj heq
          exact absurd (not_not.mp h) hne
  · intro l t hok
    exact get_impedance_go_temps cs none 0 [] [] (by intro x hx; cases hx)
      (by intro m hm; cases hm) l t hok

/-- Claim C10, counterexample: with a sentinel-id class followed by a class
supplying the real id `mf5`, no unbound-variable error occurs — the run
succeeds, and the entry appended for the real-id class is the previously
created temporary (the matrix of the user is never used). -/
theorem impedance_matrices_counterexample :
    get_impedance_matrices [⟨"c1", "mf0"⟩, ⟨"c2", "mf5"⟩]
      = .ok ([.temp 0, .temp 0], [.temp 0]) ∧ ("mf5" : String) ≠ "mf0" := by
  exact ⟨rfl, by decide⟩

/-- Witness for `impedance_matrices_spec`: a run whose first class supplies
the real id `mf17` raises. -/
theorem impedance_matrices_spec_witness :
    ∃ e, get_impedance_matrices [⟨"c1", "mf17"⟩] = .error e := by
  exact (impedance_matrices_spec [⟨"c1", "mf17"⟩]).1.mpr ⟨⟨"c1", "mf17"⟩, [], rfl, by decide⟩

/-- The free-slot search only returns ids not already in the bank. -/
theorem find_free_slot_not_mem {bank : List Nat} {i : Nat}
    (h : find_free_slot bank = some i) : i ∉ bank := by
  have hp := List.find?_some h
  simpa using hp

/-- Creating the temporary functions preserves distinctness of the
function ids of the bank. -/
theorem create_temp_ttfs_nodup :
    ∀ (defs bank : List Nat), bank.Nodup → (create_temp_ttfs defs bank).1.Nodup := by
  intro defs
  induction defs with
  | nil => intro bank h; exact h
  | cons d rest ih =>
    intro bank h
    unfold create_temp_ttfs
    cases hfs : find_free_slot bank with
    | none => exact ih bank h
    | some i =>
      exact ih (i :: bank) (List.nodup_cons.mpr ⟨find_free_slot_not_mem hfs, h⟩)

/-- Deleting functions never adds one: an id absent from the bank stays
absent through any sequence of deletions. -/
theorem not_mem_foldl_erase :
    ∀ (cs l : List Nat) (x : Nat), x ∉ l → x ∉ cs.foldl (fun b c => b.erase c) l := by
  intro cs
  induction cs with
  | nil => intro l x h; exact h
  | cons c0 cs' ih =>
    intro l x h
    simp only [List.foldl_cons]
    exact ih (l.erase c0) x (fun hm => h ((l.erase_sublist c0).subset hm))

/-- Deleting each id of `cs` from a duplicate-free bank removes every one of
them. -/
theorem erase_foldl_not_mem :
    ∀ (cs l : List Nat), l.Nodup → ∀ c ∈ cs, c ∉ cs.foldl (fun b x => b.erase x) l := by
  intro cs
  induction cs with
  | nil => intro l _ c hc; cases hc
  | cons c0 cs' ih =>
    intro l hnd c hc
    simp only [List.foldl_cons]
    rcases List.mem_cons.mp hc with rfl | hc'
    · refine not_mem_foldl_erase cs' (l.erase c) c (fun hmem => ?_)
      exact ((hnd.mem_erase_iff).mp hmem).1 rfl
    · exact ih (l.erase c0) (hnd.erase c0) c hc'

/-- Claim C2: on every exit of the `_temp_stsu_ttfs` scope — the body
completing normally (`body_ok = true`) or an exception propagating
(`body_ok = false`) — every time function the scope created is deleted from
the bank by the `finally` clause. -/
theorem temp_stsu_ttfs_deletes_created (bank ttf_definitions : List Nat) (body_ok : Bool)
    (hnd : bank.Nodup) :
    ∀ c ∈ (create_temp_ttfs ttf_definitions bank).2,
      c ∉ (temp_stsu_ttfs bank ttf_definitions body_ok).2 := by
  intro c hc
  unfold temp_stsu_ttfs delete_functions
  exact erase_foldl_not_mem (create_temp_ttfs ttf_definitions bank).2
    (create_temp_ttfs ttf_definitions bank).1
    (create_temp_ttfs_nodup ttf_definitions bank hnd) c hc

/-- Witness for `temp_stsu_ttfs_deletes_created`: with a bank holding `ft3`
and one declared ttf definition, the scope creates `ft1`, and `ft1` is gone
from the bank after an exceptional exit. -/
theorem temp_stsu_ttfs_deletes_created_witness :
    (1 : Nat) ∉ (temp_stsu_ttfs [3] [7] false).2 := by
  exact temp_stsu_ttfs_deletes_created [3] [7] false (by decide) 1 (by decide)

/-- A function whose whitespace-stripped expression has no `us3` reference
is left unchanged by one healing step. -/
theorem heal_function_no_us3 : ∀ (f : EmmeFunction),
    contains_sub us3_var (strip_ws f.expression) = false →
    heal_function f = .ok (f, false) := by
  rintro ⟨fid, ftype, fexpr⟩ h
  cases ftype with
  | other => rfl
  | transit_time =>
    simp only [heal_function]
    rw [if_neg (by simp_all)]

/-- One healing step either raises exactly on an offending function — with
the error naming that function — or succeeds. -/
theorem heal_function_cases (f : EmmeFunction) :
    (offending f ∧ heal_function f = .error f.id) ∨
    (¬ offending f ∧ ∃ f2 changed, heal_function f = .ok (f2, changed)) := by
  rcases f with ⟨fid, ftype, fexpr⟩
  cases ftype with
  | other =>
    right
    exact ⟨fun hoff => by simp [offending] at hoff, _, _, rfl⟩
  | transit_time =>
    simp only [heal_function]
    by_cases hc : contains_sub us3_var (strip_ws fexpr) = true
    · by_cases hends : ends_with congestion_suffix (strip_ws fexpr) = true
      · right
        constructor
        · rintro ⟨-, -, hoff⟩
          simp only at hoff
          rw [hends] at hoff
          cases hoff
        · rw [if_pos hc, if_pos hends]
          exact ⟨_, _, rfl⟩
      · left
        refine ⟨⟨rfl, hc, by simpa using hends⟩, ?_⟩
        rw [if_pos hc, if_neg hends]
    · right
      constructor
      · rintro ⟨-, hoff, -⟩
        simp only at hoff
        exact hc hoff
      · rw [if_neg hc]
        exact ⟨_, _, rfl⟩

/-- Claim C5: the healing pass raises if and only if the whitespace-stripped
expression of some transit-time function contains `us3` without ending in
the suffix `*(1+us3)`; the raised error names the (first) offending
function; and on success every function with no `us3` reference is left
unchanged — in particular a pass that heals nothing succeeds. -/
theorem heal_pass_spec (fs : List EmmeFunction) :
    ((∃ e, heal_travel_time_functions fs = .error e) ↔ ∃ f ∈ fs, offending f) ∧
    (∀ e, heal_travel_time_functions fs = .error e → ∃ f ∈ fs, offending f ∧ e = f.id) ∧
    (∀ fs2 n, heal_travel_time_functions fs = .ok (fs2, n) →
      List.Forall₂
        (fun f f2 => contains_sub us3_var (strip_ws f.expression) = false → f2 = f)
        fs fs2) := by
  induction fs with
  | nil =>
    refine ⟨by simp [heal_travel_time_functions], ?_, ?_⟩
    · intro e he
      exact absurd he (by simp [heal_travel_time_functions])
    · intro fs2 n h
      simp only [heal_travel_time_functions, Except.ok.injEq, Prod.mk.injEq] at h
      rw [← h.1]
      exact List.Forall₂.nil
  | cons f rest ih =>
    obtain ⟨ih1, ih2, ih3⟩ := ih
    rcases heal_function_cases f with ⟨hoff, herr⟩ | ⟨hnoff, f2, ch, hok⟩
    · have hpass : heal_travel_time_functions (f :: rest) = .error f.id := by
        simp [heal_travel_time_functions, herr]
      refine ⟨⟨fun _ => ⟨f, List.mem_cons_self f rest, hoff⟩,
        fun _ => ⟨f.id, hpass⟩⟩, ?_, ?_⟩
      · intro e he
        rw [hpass] at he
        exact ⟨f, List.mem_cons_self f rest, hoff, (Except.error.inj he).symm⟩
      · intro fs2 n h
        rw [hpass] at h
        cases h
    · cases hrest : heal_travel_time_functions rest with
      | error e =>
        have hpass : heal_travel_time_functions (f :: rest) = .error e := by
          simp [heal_travel_time_functions, hok, hrest]
        refine ⟨⟨fun _ => ?_, fun _ => ⟨e, hpass⟩⟩, ?_, ?_⟩
        · obtain ⟨g, hg, hoffg⟩ := ih1.mp ⟨e, hrest⟩
          exact ⟨g, List.mem_cons_of_mem f hg, hoffg⟩
        · intro e' he'
          rw [hpass] at he'
          obtain ⟨g, hg, hoffg, hid⟩ := ih2 e hrest
          exact ⟨g, List.mem_cons_of_mem f hg, hoffg, (Except.error.inj he').symm ▸ hid⟩
        · intro fs2 n h
          rw [hpass] at h
          cases h
      | ok p =>
        obtain ⟨fs', n'⟩ := p
        have hpass : heal_travel_time_functions (f :: rest)
            = .ok (f2 :: fs', if ch then n' + 1 else n') := by
          simp [heal_travel_time_functions, hok, hrest]
        refine ⟨?_, ?_, ?_⟩
        · constructor
          · rintro ⟨e, he⟩
            rw [hpass] at he
            cases he
          · rintro ⟨g, hg, hoffg⟩
            rcases List.mem_cons.mp hg with rfl | hg'
            · exact absurd hoffg hnoff
            · obtain ⟨e, he⟩ := ih1.mpr ⟨g, hg', hoffg⟩
              rw [hrest] at he
              cases he
        · intro e he
          rw [hpass] at he
          cases he
        · intro fs2 n h
          rw [hpass] at h
          obtain ⟨h1, -⟩ := Prod.mk.inj (Except.ok.inj h)
          rw [← h1]
          refine List.Forall₂.cons ?_ (ih3 fs' n' hrest)
          intro hnous3
          have := heal_function_no_us3 f hnous3
          rw [hok] at this
          exact (Prod.mk.inj (Except.ok.inj this)).1

/-- Witness for `heal_pass_spec`: a bank whose only transit-time function
does not reference `us3` heals without error. -/
theorem heal_pass_spec_witness :
    ¬ ∃ e, heal_travel_time_functions
        [⟨"ft1", FunctionType.transit_time, ("length*60/us1").toList⟩] = .error e := by
  intro he
  have h := (heal_pass_spec
    [⟨"ft1", FunctionType.transit_time, ("length*60/us1").toList⟩]).1.mp he
  revert h
  decide

/-- Function `starts_with` agrees with "is an initial segment". -/
theorem starts_with_iff : ∀ (p s : List Char), starts_with p s = true ↔ ∃ t, s = p ++ t := by
  intro p
  induction p with
  | nil => intro s; simp [starts_with]
  | cons c cs ih =>
    intro s
    cases s with
    | nil => simp [starts_with]
    | cons d ds =>
      simp only [starts_with, Bool.and_eq_true, decide_eq_true_eq, List.cons_append]
      constructor
      · rintro ⟨rfl, h⟩
        obtain ⟨t, rfl⟩ := (ih ds).mp h
        exact ⟨t, rfl⟩
      · rintro ⟨t, ht⟩
        injection ht with h1 h2
        exact ⟨h1.symm, (ih ds).mpr ⟨t, h2⟩⟩

/-- A pattern that starts a list is no longer than the list. -/
theorem starts_with_length {p s : List Char} (h : starts_with p s = true) :
    p.length ≤ s.length := by
  obtain ⟨t, rfl⟩ := (starts_with_iff p s).mp h
  simp

/-- Function `contains_sub` agrees with "some position starts with the pattern". -/
theorem contains_sub_iff (pat : List Char) :
    ∀ (s : List Char), contains_sub pat s = true ↔ ∃ i, starts_with pat (s.drop i) = true := by
  intro s
  induction s with
  | nil => simp [contains_sub, List.drop_nil]
  | cons c cs ih =>
    simp only [contains_sub, Bool.or_eq_true]
    constructor
    · rintro (h | h)
      · exact ⟨0, h⟩
      · obtain ⟨i, hi⟩ := ih.mp h
        exact ⟨i + 1, hi⟩
    · rintro ⟨i, hi⟩
      cases i with
      | zero => exact Or.inl hi
      | succ j => exact Or.inr (ih.mpr ⟨j, hi⟩)

/-- Function `find_idx` fails exactly when the pattern is absent. -/
theorem find_idx_none_iff (pat : List Char) :
    ∀ (s : List Char), find_idx pat s = none ↔ contains_sub pat s = false := by
  intro s
  induction s with
  | nil =>
    simp only [find_idx, contains_sub]
    by_cases h : starts_with pat [] = true
    · simp [h]
    · simp [h]
  | cons c cs ih =>
    simp only [find_idx, contains_sub]
    by_cases h : starts_with pat (c :: cs) = true
    · simp [h]
    · rw [if_neg h, Bool.eq_false_iff.mpr h]
      simp only [Option.map_eq_none', Bool.false_or]
      exact ih

/-- Function `find_idx` returns the index of the first occurrence: the pattern starts
there and at no earlier position. -/
theorem find_idx_some_spec :
    ∀ (s pat : List Char) (i : Nat), find_idx pat s = some i →
      starts_with pat (s.drop i) = true ∧
      ∀ j < i, starts_with pat (s.drop j) = false := by
  intro s
  induction s with
  | nil =>
    intro pat i h
    simp only [find_idx] at h
    by_cases hs : starts_with pat [] = true
    · rw [if_pos hs] at h
      obtain rfl : (0 : Nat) = i := Option.some.inj h
      exact ⟨hs, fun j hj => absurd hj (Nat.not_lt_zero j)⟩
    · rw [if_neg hs] at h
      cases h
  | cons c cs ih =>
    intro pat i h
    simp only [find_idx] at h
    by_cases hs : starts_with pat (c :: cs) = true
    · rw [if_pos hs] at h
      obtain rfl : (0 : Nat) = i := Option.some.inj h
      exact ⟨hs, fun j hj => absurd hj (Nat.not_lt_zero j)⟩
    · rw [if_neg hs] at h
      obtain ⟨k, hk, hki⟩ := Option.map_eq_some'.mp h
      obtain ⟨h1, h2⟩ := ih pat k hk
      subst hki
      refine ⟨h1, ?_⟩
      intro j hj
      cases j with
      | zero =>
        simpa using Bool.eq_false_iff.mpr (fun hc => hs (by simpa using hc))
      | succ j' => exact h2 j' (Nat.lt_of_succ_lt_succ hj)

/-- Function `ends_with` agrees with "is a final segment". -/
theorem ends_with_iff (pat s : List Char) : ends_with pat s = true ↔ ∃ t, s = t ++ pat := by
  unfold ends_with
  rw [starts_with_iff]
  constructor
  · rintro ⟨u, hu⟩
    refine ⟨u.reverse, ?_⟩
    have h2 := congrArg List.reverse hu
    simpa using h2
  · rintro ⟨t, rfl⟩
    exact ⟨t.reverse, by simp⟩

/-- A whitespace-free string stays whitespace-free under `take`. -/
theorem strip_ws_take {l : List Char} (h : strip_ws l = l) (i : Nat) :
    strip_ws (l.take i) = l.take i := by
  unfold strip_ws at h ⊢
  rw [List.filter_eq_self] at h ⊢
  intro a ha
  exact h a (List.take_subset i l ha)

/-- An occurrence of a nonempty pattern inside `s.take i` is an occurrence
in `s` strictly before position `i`. -/
theorem occurrence_in_take {pat s : List Char} {i : Nat} (hne : pat ≠ [])
    (h : contains_sub pat (s.take i) = true) :
    ∃ j, j < i ∧ starts_with pat (s.drop j) = true := by
  obtain ⟨j, hj⟩ := (contains_sub_iff pat (s.take i)).mp h
  have hlen := starts_with_length hj
  have hpat_pos : 0 < pat.length := List.length_pos.mpr hne
  have hdrop_len : ((s.take i).drop j).length = (s.take i).length - j := by
    simp
  have hji : j < (s.take i).length := by omega
  have hile : (s.take i).length ≤ i := by
    simp [List.length_take]
  refine ⟨j, by omega, ?_⟩
  rw [List.drop_take] at hj
  obtain ⟨t, ht⟩ := (starts_with_iff _ _).mp hj
  refine (starts_with_iff _ _).mpr ⟨t ++ (s.drop j).drop (i - j), ?_⟩
  conv_lhs => rw [← List.take_append_drop (i - j) (s.drop j)]
  rw [ht, List.append_assoc]

/-- Claim C4, amended: for a whitespace-stripped transit-time expression
ending in the congestion suffix `*(1+us3)`, healing truncates at the *first*
occurrence of the suffix; when the suffix occurs nowhere else, this removes
exactly the trailing suffix; the healed expression never contains the suffix
again, so re-healing it is a no-op precisely when it no longer references
`us3` and raises the configuration-conflict error when it still does. -/
theorem heal_expr_spec (e : List Char) (hstrip : strip_ws e = e)
    (hend : ends_with congestion_suffix e = true) :
    (∃ i, find_idx congestion_suffix e = some i ∧ heal_expr e = e.take i ∧
      starts_with congestion_suffix (e.drop i) = true ∧
      ∀ j < i, starts_with congestion_suffix (e.drop j) = false) ∧
    ((∀ j, j + congestion_suffix.length < e.length →
        starts_with congestion_suffix (e.drop j) = false) →
      heal_expr e ++ congestion_suffix = e) ∧
    contains_sub congestion_suffix (heal_expr e) = false ∧
    (∀ f : EmmeFunction, f.type = FunctionType.transit_time →
      f.expression = heal_expr e →
      (contains_sub us3_var (heal_expr e) = false → heal_function f = .ok (f, false)) ∧
      (contains_sub us3_var (heal_expr e) = true → heal_function f = .error f.id)) := by
  obtain ⟨t, rfl⟩ := (ends_with_iff congestion_suffix e).mp hend
  have hcontains : contains_sub congestion_suffix (t ++ congestion_suffix) = true := by
    refine (contains_sub_iff _ _).mpr ⟨t.length, ?_⟩
    rw [List.drop_left]
    exact (starts_with_iff _ _).mpr ⟨[], (List.append_nil _).symm⟩
  obtain ⟨i, hfind⟩ : ∃ i, find_idx congestion_suffix (t ++ congestion_suffix) = some i := by
    cases hf : find_idx congestion_suffix (t ++ congestion_suffix) with
    | none =>
      rw [(find_idx_none_iff _ _).mp hf] at hcontains
      cases hcontains
    | some k => exact ⟨k, rfl⟩
  obtain ⟨hat, hmin⟩ := find_idx_some_spec _ _ _ hfind
  have hheal : heal_expr (t ++ congestion_suffix) = (t ++ congestion_suffix).take i := by
    simp only [heal_expr, hfind]
  have hsuffix_ne : congestion_suffix ≠ [] := by decide
  have hsuffix_len : congestion_suffix.length = 8 := by decide
  have hno_suffix : contains_sub congestion_suffix ((t ++ congestion_suffix).take i) = false := by
    cases hb : contains_sub congestion_suffix ((t ++ congestion_suffix).take i) with
    | false => rfl
    | true =>
      obtain ⟨j, hji, hjsw⟩ := occurrence_in_take hsuffix_ne hb
      rw [hmin j hji] at hjsw
      cases hjsw
  refine ⟨⟨i, hfind, hheal, hat, hmin⟩, ?_, ?_, ?_⟩
  · intro hno
    have hlen_drop : ((t ++ congestion_suffix).drop i).length
        = (t ++ congestion_suffix).length - i := by
      simp
    have h1 := starts_with_length hat
    have heq : i + congestion_suffix.length = (t ++ congestion_suffix).length := by
      by_cases hlt : i + congestion_suffix.length < (t ++ congestion_suffix).length
      · rw [hno i hlt] at hat
        cases hat
      · omega
    have hit : i = t.length := by
      have h2 := List.length_append t congestion_suffix
      omega
    rw [hheal, hit, List.take_left]
  · rw [hheal]
    exact hno_suffix
  · intro f htype hexpr
    obtain ⟨fid, ftype, fexpr⟩ := f
    dsimp only at htype hexpr
    subst htype
    subst hexpr
    have hstrip_heal : strip_ws (heal_expr (t ++ congestion_suffix))
        = heal_expr (t ++ congestion_suffix) := by
      rw [hheal]
      exact strip_ws_take hstrip i
    constructor
    · intro hnous3
      simp only [heal_function]
      rw [hstrip_heal, if_neg (by simp [hnous3])]
    · intro hus3
      have hends_false : ends_with congestion_suffix (heal_expr (t ++ congestion_suffix))
          = false := by
        cases hb : ends_with congestion_suffix (heal_expr (t ++ congestion_suffix)) with
        | false => rfl
        | true =>
          obtain ⟨u, hu⟩ := (ends_with_iff _ _).mp hb
          have hcon : contains_sub congestion_suffix (heal_expr (t ++ congestion_suffix))
              = true := by
            refine (contains_sub_iff _ _).mpr ⟨u.length, ?_⟩
            rw [hu, List.drop_left]
            exact (starts_with_iff _ _).mpr ⟨[], (List.append_nil _).symm⟩
          rw [hheal] at hcon
          rw [hcon] at hno_suffix
          cases hno_suffix
      simp only [heal_function]
      rw [hstrip_heal, if_pos hus3, if_neg (by simp [hends_false])]

/-- Claim C4, counterexample.  On `x*(1+us3)*(1+us3)` — which ends with the
suffix — healing truncates at the *first* occurrence, yielding `x` instead
of removing exactly the trailing suffix (`x*(1+us3)`).  And healing is not
idempotent: `us3*(1+us3)` heals to `us3`, and healing that result raises the
configuration-conflict error instead of being a no-op. -/
theorem heal_counterexample :
    heal_expr ("x*(1+us3)*(1+us3)").toList = ("x").toList ∧
    ("x").toList ≠ ("x*(1+us3)").toList ∧
    heal_function ⟨"ft2", FunctionType.transit_time, ("us3*(1+us3)").toList⟩
      = .ok (⟨"ft2", FunctionType.transit_time, ("us3").toList⟩, true) ∧
    heal_function ⟨"ft2", FunctionType.transit_time, ("us3").toList⟩ = .error "ft2" := by
  exact ⟨rfl, by decide, rfl, rfl⟩

/-- Witness for `heal_expr_spec`: on `x*(1+us3)`, where the suffix occurs
only at the end, healing removes exactly the trailing suffix. -/
theorem heal_expr_spec_witness :
    heal_expr ("x*(1+us3)").toList ++ congestion_suffix = ("x*(1+us3)").toList := by
  have h := heal_expr_spec ("x*(1+us3)").toList (by decide) (by decide)
  refine h.2.1 ?_
  intro j hj
  have hlen : congestion_suffix.length = 8 := by decide
  have hslen : ("x*(1+us3)").toList.length = 9 := by decide
  have hj0 : j = 0 := by omega
  subst hj0
  decide

/-- Marking a node `-1` keeps every already `-1` marker at `-1`. -/
theorem set_marker_neg_preserves (s : Nat → Int) (a k : Nat) (h : s k = -1) :
    set_marker s a (-1) k = -1 := by
  unfold set_marker
  split
  · rfl
  · exact h

/-- Marking a node `-1` makes the marker of that node `-1`. -/
theorem set_marker_self_neg (s : Nat → Int) (k : Nat) : set_marker s k (-1) k = -1 := by
  unfold set_marker
  rw [if_pos rfl]

/-- A conditional `-1` write keeps every already `-1` marker at `-1`. -/
theorem step_preserves_neg (k tgt : Nat) (c : Prop) [Decidable c] (st : Nat → Int)
    (h : st k = -1) : (if c then set_marker st tgt (-1) else st) k = -1 := by
  split
  · exact set_marker_neg_preserves st tgt k h
  · exact h

/-- A fold whose steps keep `-1` markers keeps `-1` markers. -/
theorem foldl_preserves_neg {α : Type} (f : (Nat → Int) → α → Nat → Int) (k : Nat)
    (hf : ∀ st a, st k = -1 → f st a k = -1) :
    ∀ (ls : List α) (st : Nat → Int), st k = -1 → (ls.foldl f st) k = -1 := by
  intro ls
  induction ls with
  | nil => intro st h; exact h
  | cons a ls ih => intro st h; exact ih (f st a) (hf st a h)

/-- A fold whose steps keep `-1` markers and whose list contains an element
that writes `-1` at `k` ends with marker `k` at `-1`. -/
theorem foldl_hits_neg {α : Type} (f : (Nat → Int) → α → Nat → Int) (k : Nat)
    (hf : ∀ st a, st k = -1 → f st a k = -1) (a0 : α) (ha : ∀ st, f st a0 k = -1) :
    ∀ (ls : List α) (st : Nat → Int), a0 ∈ ls → (ls.foldl f st) k = -1 := by
  intro ls
  induction ls with
  | nil => intro st h; cases h
  | cons a ls ih =>
    intro st h
    rcases List.mem_cons.mp h with rfl | h'
    · exact foldl_preserves_neg f k hf ls (f st a0) (ha st)
    · exact ih (f st a) h'

/-- Every write of the marking loop body writes `-1`, so processing any node
keeps `-1` markers at `-1`. -/
theorem process_node_preserves (net : EmmeNetwork) (m : NetNode) (k : Nat)
    (s : Nat → Int) (h : s k = -1) : process_node net s m k = -1 := by
  unfold process_node
  split
  · exact h
  · dsimp only
    split
    · apply foldl_preserves_neg _ k (fun st a hst => step_preserves_neg k _ _ st hst)
      apply foldl_preserves_neg _ k (fun st a hst => step_preserves_neg k _ _ st hst)
      apply set_marker_neg_preserves
      apply foldl_preserves_neg _ k (fun st a hst => step_preserves_neg k _ _ st hst)
      apply foldl_preserves_neg _ k (fun st a hst => step_preserves_neg k _ _ st hst)
      exact h
    · apply foldl_preserves_neg _ k (fun st a hst => step_preserves_neg k _ _ st hst)
      apply foldl_preserves_neg _ k (fun st a hst => step_preserves_neg k _ _ st hst)
      exact h

/-- Processing a non-agency regular node that has an incoming link from a
centroid or an outgoing link to a centroid leaves the marker of that node at
`-1`. -/
theorem process_node_sets (net : EmmeNetwork) (n : NetNode) (hnum : ¬ 99999 < n.number)
    (hadj : (∃ l ∈ incoming_links net n.number, is_centroid_num net l.i_node = true) ∨
            (∃ l ∈ outgoing_links net n.number, is_centroid_num net l.j_node = true)) :
    ∀ s, process_node net s n n.number = -1 := by
  intro s
  unfold process_node
  rw [if_neg hnum]
  dsimp only
  have hs2 : ((outgoing_links net n.number).foldl
      (fun st l =>
        if is_centroid_num net l.j_node = true then set_marker st n.number (-1) else st)
      ((incoming_links net n.number).foldl
        (fun st l =>
          if is_centroid_num net l.i_node = true then set_marker st n.number (-1) else st)
        s)) n.number = -1 := by
    rcases hadj with ⟨l0, hl0, hc0⟩ | ⟨l0, hl0, hc0⟩
    · apply foldl_preserves_neg _ n.number
        (fun st a hst => step_preserves_neg n.number _ _ st hst)
      apply foldl_hits_neg _ n.number
        (fun st a hst => step_preserves_neg n.number _ _ st hst) l0
        (fun st => by rw [if_pos hc0]; exact set_marker_self_neg st n.number)
        _ _ hl0
    · apply foldl_hits_neg _ n.number
        (fun st a hst => step_preserves_neg n.number _ _ st hst) l0
        (fun st => by rw [if_pos hc0]; exact set_marker_self_neg st n.number)
        _ _ hl0
  split
  · apply foldl_preserves_neg _ n.number
      (fun st a hst => step_preserves_neg n.number _ _ st hst)
    apply foldl_preserves_neg _ n.number
      (fun st a hst => step_preserves_neg n.number _ _ st hst)
    apply set_marker_self_neg
  · exact hs2

/-- Once the processing of a member node has set its marker to `-1`, the
remainder of the marking loop keeps it there. -/
theorem publish_fold_marks (net : EmmeNetwork) (n : NetNode) (hnum : ¬ 99999 < n.number)
    (hadj : (∃ l ∈ incoming_links net n.number, is_centroid_num net l.i_node = true) ∨
            (∃ l ∈ outgoing_links net n.number, is_centroid_num net l.j_node = true)) :
    ∀ (regs : List NetNode) (st : Nat → Int), n ∈ regs →
      (regs.foldl (process_node net) st) n.number = -1 := by
  intro regs
  induction regs with
  | nil => intro st h; cases h
  | cons m ms ih =>
    intro st h
    rcases List.mem_cons.mp h with rfl | h'
    · exact foldl_preserves_neg (process_node net) n.number
        (fun st' a h'' => process_node_preserves net a n.number st' h'') ms
        (process_node net st n) (process_node_sets net n hnum hadj st)
    · exact ih (process_node net st m) h'

/-- Claim C8, amended: after `_publish_efficient_connector_network`, every
regular node whose number does not exceed the agency threshold 99999 and
that is adjacent to a centroid link (an incoming link from a centroid or an
outgoing link to a centroid) has marker `-1`, regardless of the initial
marker state.  (Regular nodes numbered above 99999 are skipped by the loop
and can keep marker 0 — see the counterexample.) -/
theorem efficient_connector_marks_centroid_adjacent (net : EmmeNetwork) (s0 : Nat → Int)
    (n : NetNode) (hmem : n ∈ net.nodes) (hreg : n.is_centroid = false)
    (hnum : n.number ≤ 99999)
    (hadj : (∃ l ∈ net.links, l.j_node = n.number ∧ is_centroid_num net l.i_node = true) ∨
            (∃ l ∈ net.links, l.i_node = n.number ∧ is_centroid_num net l.j_node = true)) :
    publish_efficient_connector_network net s0 n.number = -1 := by
  have hadj' : (∃ l ∈ incoming_links net n.number, is_centroid_num net l.i_node = true) ∨
      (∃ l ∈ outgoing_links net n.number, is_centroid_num net l.j_node = true) := by
    rcases hadj with ⟨l0, hl0, hj, hc⟩ | ⟨l0, hl0, hi, hc⟩
    · exact Or.inl ⟨l0, List.mem_filter.mpr ⟨hl0, by simp [hj]⟩, hc⟩
    · exact Or.inr ⟨l0, List.mem_filter.mpr ⟨hl0, by simp [hi]⟩, hc⟩
  unfold publish_efficient_connector_network
  exact publish_fold_marks net n (by omega) hadj' (regular_nodes net) _
    (List.mem_filter.mpr ⟨hmem, by simp [hreg]⟩)

/-- Claim C8, counterexample: a regular node numbered 100000 (above the
agency threshold) with an incoming link from a centroid is skipped by the
marking loop and ends with marker 0, not `-1` as the claim states. -/
theorem efficient_connector_counterexample :
    publish_efficient_connector_network
      ⟨[⟨1, true⟩, ⟨100000, false⟩], [⟨1, 100000⟩]⟩ (fun _ => 0) 100000 = 0 ∧
    (0 : Int) ≠ -1 := by
  exact ⟨rfl, by decide⟩

/-- Witness for `efficient_connector_marks_centroid_adjacent`: regular node
2 with an incoming link from centroid 1 ends with marker `-1` even from a
nonzero initial marker state. -/
theorem efficient_connector_witness :
    publish_efficient_connector_network
      ⟨[⟨1, true⟩, ⟨2, false⟩], [⟨1, 2⟩]⟩ (fun _ => 5) 2 = -1 := by
  exact efficient_connector_marks_centroid_adjacent
    ⟨[⟨1, true⟩, ⟨2, false⟩], [⟨1, 2⟩]⟩ (fun _ => 5) ⟨2, false⟩ (by simp) rfl
    (by norm_num)
    (Or.inl ⟨⟨1, 2⟩, by simp, rfl, by decide⟩)


